import Mathlib

/-!
Verification of the instrumentation orchestration engine of
`cakefuzzer/instrumentation/instrumentator.py`.

Filesystem paths are modelled as lists of path segments (`List String`).
A filesystem is modelled as the list of the paths of all files it contains;
`Path.rglob` over a directory becomes a filter of that list.  `Path.rglob`
on a directory that does not exist yields nothing and raises no error
(pathlib guards the walk with an `is_dir` test), which the filter model
reflects by simply matching no file.
-/

/-- Index of the last dot in a list of characters, if any
(helper for `pyStem`). -/
def lastDotIdxAux : List Char → Nat → Option Nat → Option Nat
  | [], _, acc => acc
  | c :: rest, i, acc =>
      lastDotIdxAux rest (i + 1) (if c = '.' then some i else acc)

/-- Python `pathlib.PurePath.stem` of a single path segment: the segment
without its final suffix.  CPython keeps the name unchanged unless the last
dot sits at an index `i` with `0 < i < len(name) - 1`. -/
def pyStem (name : String) : String :=
  let cs := name.toList
  match lastDotIdxAux cs 0 none with
  | none => name
  | some i => if 0 < i ∧ i < cs.length - 1 then String.mk (cs.take i) else name

/-- `s.endswith(post)` of Python, computed over the character lists. -/
def strEndsWith (s post : String) : Bool :=
  post.toList.isSuffixOf s.toList

/-- The files produced by `root.rglob ("*" ++ sfx)`: every file strictly
under `root` whose final segment ends with `sfx`.  Enumeration order of the
filesystem list stands for directory-walk order. -/
def rglobMatches (fs : List (List String)) (root : List String)
    (sfx : String) : List (List String) :=
  fs.filter fun p =>
    root.isPrefixOf p && decide (root.length < p.length)
      && strEndsWith (p.getLastD "") sfx

/-- POSIX-style resolution of `..` and `.` segments against an absolute
root (a leading `..` above the root stays at the root, as in `/.. = /`).
Used only to state where a produced target path actually points. -/
def normalizePath (p : List String) : List String :=
  p.foldl
    (fun acc seg =>
      if seg = ".." then acc.dropLast
      else if seg = "." then acc else acc ++ [seg]) []

/-- `int(s)` of Python, modelled for the non-negative digit strings that
dotted version numbers contain. -/
def pyIntDigits (s : String) : Nat :=
  s.toList.foldl (fun n c => n * 10 + (c.toNat - Char.toNat '0')) 0

/-- The characters before the first dot (helper for `majorVersionOf`;
`version.split(".")[0]` is the text before the first dot, or the whole
string when there is no dot). -/
def takeUntilDot : List Char → List Char
  | [] => []
  | c :: rest => if c = '.' then [] else c :: takeUntilDot rest

/-- `int(version.split(".")[0])` from `_load_instrumentations`: the integer
parsed from the text before the first dot of the version string. -/
def majorVersionOf (version : String) : Nat :=
  pyIntDigits (String.mk (takeUntilDot version.toList))

/-- `PatchInstrumentation(patch=..., original=...)`: a unified-diff patch
operation bound to its patch file and the live file it patches. -/
structure PatchInstrumentation where
  patch : List String
  original : List String
deriving DecidableEq

/-- `CopyInstrumentation(src=..., dst=...)`: a copy operation bound to its
source file and live destination. -/
structure CopyInstrumentation where
  src : List String
  dst : List String
deriving DecidableEq

/-- Modelled from the spec: the Override operation variant
(`cakefuzzer.instrumentation.override`, not under `src/`) — replacing a
file with given contents. -/
structure OverrideInstrumentation where
  targetPath : List String
  content : String
deriving DecidableEq

/-- Modelled from the spec: the AnnotationRemoval operation variant (not
under `src/`) — stripping matching markers from a file. -/
structure AnnotationRemovalInstrumentation where
  targetPath : List String
  pattern : String
deriving DecidableEq

/-- `Instrumentator._load_cake_version_patches`: walk the three root
subtrees of `patch_dir/cakephp/<major_version>/`, and for every `*.patch`
file found produce a `PatchInstrumentation` whose `original` is the file
path relative to its root subtree, final segment replaced by its stem,
resolved against the corresponding live root. -/
def loadCakeVersionPatches (fs : List (List String)) (patchDir : List String)
    (cakeAppDir cakeCakephpPath webrootDir : List String)
    (majorVersion : Nat) : List PatchInstrumentation :=
  let versionDir := patchDir ++ ["cakephp", toString majorVersion]
  let appDir := versionDir ++ ["APP_DIR"]
  let cakephpPath := versionDir ++ ["CAKEPHP_PATH"]
  let webroot := versionDir ++ ["WEBROOT"]
  ((rglobMatches fs appDir ".patch").map fun file =>
    let rel := file.drop appDir.length
    let original := rel.dropLast ++ [pyStem (rel.getLastD "")]
    { patch := file, original := cakeAppDir ++ original })
  ++ ((rglobMatches fs cakephpPath ".patch").map fun file =>
    let rel := file.drop cakephpPath.length
    let original := rel.dropLast ++ [pyStem (rel.getLastD "")]
    { patch := file, original := cakeCakephpPath ++ original })
  ++ ((rglobMatches fs webroot ".patch").map fun file =>
    let rel := file.drop webroot.length
    let original := rel.dropLast ++ [pyStem (rel.getLastD "")]
    { patch := file, original := webrootDir ++ original })

/-- `Instrumentator._load_cake_version_copies`: walk the same three root
subtrees, and for every `*.php` file produce a `CopyInstrumentation` whose
`dst` is the file path relative to its root subtree — no suffix stripping —
resolved against the corresponding live root. -/
def loadCakeVersionCopies (fs : List (List String)) (patchDir : List String)
    (cakeAppDir cakeCakephpPath webrootDir : List String)
    (majorVersion : Nat) : List CopyInstrumentation :=
  let versionDir := patchDir ++ ["cakephp", toString majorVersion]
  let appDir := versionDir ++ ["APP_DIR"]
  let cakephpPath := versionDir ++ ["CAKEPHP_PATH"]
  let webroot := versionDir ++ ["WEBROOT"]
  ((rglobMatches fs appDir ".php").map fun file =>
    { src := file, dst := cakeAppDir ++ file.drop appDir.length })
  ++ ((rglobMatches fs cakephpPath ".php").map fun file =>
    { src := file, dst := cakeCakephpPath ++ file.drop cakephpPath.length })
  ++ ((rglobMatches fs webroot ".php").map fun file =>
    { src := file, dst := webrootDir ++ file.drop webroot.length })

/-- The fields of `InstrumentationSettings` that `_load_instrumentations`
reads: the base resource directory and the four declared operation lists. -/
structure SettingsModel where
  patch_dir : List String
  patches : List PatchInstrumentation
  copies : List CopyInstrumentation
  file_overrides : List OverrideInstrumentation
  remove_annot : List AnnotationRemovalInstrumentation

/-- `Instrumentator._load_instrumentations`: assemble the four ordered
groups handed to the orchestrator.  `version` is the detected dotted
framework version string. -/
def loadInstrumentations (fs : List (List String)) (settings : SettingsModel)
    (cakeAppDir cakeCakephpPath webrootDir : List String) (version : String) :
    List OverrideInstrumentation × List PatchInstrumentation ×
      List CopyInstrumentation × List AnnotationRemovalInstrumentation :=
  let settingsPatches := settings.patches
  let settingsOverrides := settings.file_overrides
  let annotationsRemoval := settings.remove_annot
  let settingsCopies := settings.copies
  let majorVersion := majorVersionOf version
  let cakePatches := loadCakeVersionPatches fs settings.patch_dir
    cakeAppDir cakeCakephpPath webrootDir majorVersion
  let cakeCopies := loadCakeVersionCopies fs settings.patch_dir
    cakeAppDir cakeCakephpPath webrootDir majorVersion
  (settingsOverrides, settingsPatches ++ cakePatches,
    settingsCopies ++ cakeCopies, annotationsRemoval)

/-!
The orchestration layer.  The operation classes and the batch helpers live
in `cakefuzzer.instrumentation` (module `__init__`), outside `src/`; they
are modelled from the spec over an abstract tree-state type `S`.
-/

/-- Modelled from the spec: the capability contract every instrumentation
operation implements — `check` is a pure read of the tree state, `apply`
and `revert` mutate it and may fail (`none`), leaving the state unchanged
on failure. -/
structure Op (S : Type) where
  check : S → Bool
  applyOp : S → Option S
  revertOp : S → Option S

/-- Modelled from the spec: the batch helper `check(*ops)` — partition a
group into (applied, unapplied) by each operation's `check`. -/
def batchCheck {S : Type} (ops : List (Op S)) (s : S) :
    List (Op S) × List (Op S) :=
  (ops.filter (fun op => op.check s), ops.filter (fun op => !op.check s))

/-- Modelled from the spec: the batch helper `apply(*ops)` — run `apply`
over the operations, threading the tree state, and return the final state
together with the subset that succeeded; an individual failure is skipped,
not an error for the batch. -/
def batchApply {S : Type} : List (Op S) → S → S × List (Op S)
  | [], s => (s, [])
  | op :: rest, s =>
      match op.applyOp s with
      | some s1 =>
          let (s2, done) := batchApply rest s1
          (s2, op :: done)
      | none => batchApply rest s

/-- Modelled from the spec: the batch helper `revert(*ops)` — same shape as
the apply helper, running `revert`. -/
def batchRevert {S : Type} : List (Op S) → S → S × List (Op S)
  | [], s => (s, [])
  | op :: rest, s =>
      match op.revertOp s with
      | some s1 =>
          let (s2, done) := batchRevert rest s1
          (s2, op :: done)
      | none => batchRevert rest s

/-- One group of `Instrumentator.apply`:
`_, unapplied = await check(*group); unapplied = await apply(*unapplied)`,
reporting `len(unapplied)` — the number of operations whose apply
succeeded. -/
def applyGroup {S : Type} (g : List (Op S)) (s : S) : S × Nat :=
  let (_, unapplied) := batchCheck g s
  let (s1, newlyApplied) := batchApply unapplied s
  (s1, newlyApplied.length)

/-- One group of `Instrumentator.revert`:
`applied, _ = await check(*group); await revert(*applied)`, reporting
`len(applied)` — the result of the batch revert is discarded. -/
def revertGroup {S : Type} (g : List (Op S)) (s : S) : S × Nat :=
  let (applied, _) := batchCheck g s
  let (s1, _reverted) := batchRevert applied s
  (s1, applied.length)

/-- The four ordered groups returned by `_load_instrumentations`. -/
structure Groups (S : Type) where
  overrides : List (Op S)
  patches : List (Op S)
  copies : List (Op S)
  annotationRemovals : List (Op S)

/-- `Instrumentator.apply`: process the groups in the order overrides,
patches, copies, annotation removals, returning the final tree state and
the four reported counts in processing order. -/
def orchApply {S : Type} (gs : Groups S) (s : S) : S × List Nat :=
  let (s1, c1) := applyGroup gs.overrides s
  let (s2, c2) := applyGroup gs.patches s1
  let (s3, c3) := applyGroup gs.copies s2
  let (s4, c4) := applyGroup gs.annotationRemovals s3
  (s4, [c1, c2, c3, c4])

/-- `Instrumentator.revert`: process the groups in the order annotation
removals, overrides, patches, copies, returning the final tree state and
the four reported counts in processing order. -/
def orchRevert {S : Type} (gs : Groups S) (s : S) : S × List Nat :=
  let (s1, c1) := revertGroup gs.annotationRemovals s
  let (s2, c2) := revertGroup gs.overrides s1
  let (s3, c3) := revertGroup gs.patches s2
  let (s4, c4) := revertGroup gs.copies s3
  (s4, [c1, c2, c3, c4])

/-- `Instrumentator.is_applied`: report the (applied, unapplied) counts of
every group, in declaration order, mutating nothing. -/
def statusGroups {S : Type} (gs : Groups S) (s : S) : List (Nat × Nat) :=
  [ ((batchCheck gs.overrides s).1.length, (batchCheck gs.overrides s).2.length),
    ((batchCheck gs.patches s).1.length, (batchCheck gs.patches s).2.length),
    ((batchCheck gs.copies s).1.length, (batchCheck gs.copies s).2.length),
    ((batchCheck gs.annotationRemovals s).1.length,
      (batchCheck gs.annotationRemovals s).2.length) ]

/-- The four operation classes, as group labels. -/
inductive GroupKind where
  | overrides
  | patches
  | copies
  | annotationRemovals
deriving DecidableEq

/-- The group of `gs` labelled by `k`. -/
def groupOf {S : Type} (k : GroupKind) (gs : Groups S) : List (Op S) :=
  match k with
  | .overrides => gs.overrides
  | .patches => gs.patches
  | .copies => gs.copies
  | .annotationRemovals => gs.annotationRemovals

/-- Run a per-group step over a sequence of group labels, threading the
tree state and collecting the reported counts. -/
def runSeq {S : Type} (step : List (Op S) → S → S × Nat) :
    List GroupKind → Groups S → S → S × List Nat
  | [], _, s => (s, [])
  | k :: ks, gs, s =>
      let (s1, c) := step (groupOf k gs) s
      let (s2, cs) := runSeq step ks gs s1
      (s2, c :: cs)

/-- The group sequence of `Instrumentator.apply`. -/
def applyOrder : List GroupKind :=
  [.overrides, .patches, .copies, .annotationRemovals]

/-- The group sequence of `Instrumentator.revert`. -/
def revertOrder : List GroupKind :=
  [.annotationRemovals, .overrides, .patches, .copies]

/-- All operations of the four groups. -/
def allOps {S : Type} (gs : Groups S) : List (Op S) :=
  gs.overrides ++ gs.patches ++ gs.copies ++ gs.annotationRemovals

/-!
The environment side effect of `_load_settings`.  Process environment is an
association list from variable names to path values (the `str()` rendering
of a path is injective, so paths are stored directly).
-/

/-- Process environment state. -/
def Env : Type := List (String × List String)

/-- `os.environ[key] = value`. -/
def envSet (e : Env) (k : String) (v : List String) : Env := (k, v) :: e

/-- Read of an environment variable: the most recently set binding. -/
def getEnv (e : Env) (k : String) : Option (List String) :=
  (e.find? (fun kv => kv.1 == k)).map (fun kv => kv.2)

/-- The values the `AppInfo` collaborator exposes (detection lives outside
`src/`): the framework path, the application dir and the dotted version. -/
structure AppInfoModel where
  cakephpPath : List String
  appDir : List String
  cakephpVersion : String

/-- `Instrumentator._load_settings`: set the four process-wide environment
variables from the detected paths, then build the settings from the
`INSTRUMENTATION_INI` value just written into the environment. -/
def loadSettingsEnv (e : Env) (app : AppInfoModel)
    (webrootDir iniPath : List String) : Env :=
  let e := envSet e "CAKEPHP_PATH" app.cakephpPath
  let e := envSet e "APP_DIR" app.appDir
  let e := envSet e "WEBROOT_DIR" webrootDir
  let e := envSet e "INSTRUMENTATION_INI" iniPath
  e

/-- The `Instrumentator.apply` entry point at the process level: loading
settings mutates the environment before the orchestration runs over the
loaded groups. -/
def applyRun {S : Type} (e : Env) (app : AppInfoModel)
    (webrootDir iniPath : List String) (gs : Groups S) (s : S) :
    Env × S × List Nat :=
  let e1 := loadSettingsEnv e app webrootDir iniPath
  let (s1, counts) := orchApply gs s
  (e1, s1, counts)

/-- The `Instrumentator.revert` entry point at the process level. -/
def revertRun {S : Type} (e : Env) (app : AppInfoModel)
    (webrootDir iniPath : List String) (gs : Groups S) (s : S) :
    Env × S × List Nat :=
  let e1 := loadSettingsEnv e app webrootDir iniPath
  let (s1, counts) := orchRevert gs s
  (e1, s1, counts)

/-- The `Instrumentator.is_applied` entry point at the process level: the
status query also loads settings first, so it too writes the environment
variables. -/
def isAppliedRun {S : Type} (e : Env) (app : AppInfoModel)
    (webrootDir iniPath : List String) (gs : Groups S) (s : S) :
    Env × List (Nat × Nat) :=
  let e1 := loadSettingsEnv e app webrootDir iniPath
  (e1, statusGroups gs s)

/-!  Helper lemmas. -/

/-- A file of the filesystem that sits strictly under `root` and whose last
segment ends with the suffix is among the rglob matches. -/
lemma mem_rglobMatches {fs : List (List String)} {root f : List String}
    {sfx : String} (hf : f ∈ fs) (h1 : root.isPrefixOf f = true)
    (h2 : root.length < f.length)
    (h3 : strEndsWith (f.getLastD "") sfx = true) :
    f ∈ rglobMatches fs root sfx :=
  List.mem_filter.mpr ⟨hf, by
    simp only [Bool.and_eq_true, decide_eq_true_eq]
    exact ⟨⟨h1, h2⟩, h3⟩⟩

/-- Every rglob match extends its root. -/
lemma rglobMatches_extends_root {fs : List (List String)} {root f : List String}
    {sfx : String} (h : f ∈ rglobMatches fs root sfx) : root <+: f := by
  have := (List.mem_filter.mp h).2
  simp only [Bool.and_eq_true] at this
  exact List.isPrefixOf_iff_prefix.mp this.1.1

/-- If no file of the filesystem extends `base`, an rglob rooted below
`base` matches nothing. -/
lemma rglobMatches_nil_of_outside (fs : List (List String))
    (base sub : List String) (sfx : String)
    (h : ∀ f ∈ fs, ¬ base <+: f) :
    rglobMatches fs (base ++ sub) sfx = [] := by
  apply List.filter_eq_nil_iff.mpr
  intro f hf
  simp only [Bool.and_eq_true, not_and]
  intro hpre _
  exfalso
  exact h f hf ((List.prefix_append base sub).trans
    (List.isPrefixOf_iff_prefix.mp hpre.1))

/-!  Claim theorems. -/

/-- C1 (counterexample): the group sequence of `revert()` is NOT the exact
reverse of the group sequence of `apply()` — the reverse of
[overrides, patches, copies, annotationRemovals] would be
[annotationRemovals, copies, patches, overrides], but `revert()` uses
[annotationRemovals, overrides, patches, copies]. -/
theorem revertOrder_ne_reverse_applyOrder :
    revertOrder ≠ applyOrder.reverse := by decide

/-- C1 (amended): `apply()` processes the groups in the order
[overrides, patches, copies, annotationRemovals] and `revert()` processes
them in the order [annotationRemovals, overrides, patches, copies]; the
two literal sequences are as stated, but the second is not the reverse of
the first. -/
theorem orch_group_sequences :
    (∀ (S : Type) (gs : Groups S) (s : S),
        orchApply gs s = runSeq applyGroup applyOrder gs s)
    ∧ (∀ (S : Type) (gs : Groups S) (s : S),
        orchRevert gs s = runSeq revertGroup revertOrder gs s)
    ∧ applyOrder
        = [.overrides, .patches, .copies, .annotationRemovals]
    ∧ revertOrder
        = [.annotationRemovals, .overrides, .patches, .copies] :=
  ⟨fun _ _ _ => rfl, fun _ _ _ => rfl, rfl, rfl⟩

/-- C5: the four groups handed to the orchestrator are the declared
overrides alone, the declared patches followed by the version-discovered
patches, the declared copies followed by the version-discovered copies,
and the declared annotation removals alone. -/
theorem loadInstrumentations_group_assembly
    (fs : List (List String)) (settings : SettingsModel)
    (cakeAppDir cakeCakephpPath webrootDir : List String)
    (version : String) :
    loadInstrumentations fs settings cakeAppDir cakeCakephpPath webrootDir
        version
      = (settings.file_overrides,
         settings.patches
           ++ loadCakeVersionPatches fs settings.patch_dir cakeAppDir
                cakeCakephpPath webrootDir (majorVersionOf version),
         settings.copies
           ++ loadCakeVersionCopies fs settings.patch_dir cakeAppDir
                cakeCakephpPath webrootDir (majorVersionOf version),
         settings.remove_annot) := rfl

/-- C7 (counterexample): a discovered patch file whose relative path
contains traversal segments is NOT rejected: the resolver produces the
operation, and its target resolves outside the live application root. -/
theorem resolver_emits_escaping_op :
    loadCakeVersionPatches
        [["res", "cakephp", "4", "APP_DIR", "..", "..", "etc",
          "passwd.patch"]]
        ["res"] ["app"] ["cake"] ["web"] 4
      = [{ patch := ["res", "cakephp", "4", "APP_DIR", "..", "..", "etc",
                     "passwd.patch"],
           original := ["app", "..", "..", "etc", "passwd"] }]
    ∧ normalizePath ["app", "..", "..", "etc", "passwd"] = ["etc", "passwd"]
    ∧ (["app"].isPrefixOf
        (normalizePath ["app", "..", "..", "etc", "passwd"])) = false := by
  refine ⟨?_, rfl, rfl⟩
  decide

/-- C7 (amended): the resolver performs no containment check at all —
every discovered file matching the suffix yields exactly one operation, so
an operation whose resolved target lies outside its live root is produced
rather than rejected, and no discovery aborts the resolver run. -/
theorem resolver_rejects_nothing
    (fs : List (List String))
    (patchDir cakeAppDir cakeCakephpPath webrootDir : List String)
    (major : Nat) :
    (loadCakeVersionPatches fs patchDir cakeAppDir cakeCakephpPath
        webrootDir major).length
      = (rglobMatches fs
          (patchDir ++ ["cakephp", toString major] ++ ["APP_DIR"])
          ".patch").length
        + (rglobMatches fs
            (patchDir ++ ["cakephp", toString major] ++ ["CAKEPHP_PATH"])
            ".patch").length
        + (rglobMatches fs
            (patchDir ++ ["cakephp", toString major] ++ ["WEBROOT"])
            ".patch").length
    ∧ (loadCakeVersionCopies fs patchDir cakeAppDir cakeCakephpPath
        webrootDir major).length
      = (rglobMatches fs
          (patchDir ++ ["cakephp", toString major] ++ ["APP_DIR"])
          ".php").length
        + (rglobMatches fs
            (patchDir ++ ["cakephp", toString major] ++ ["CAKEPHP_PATH"])
            ".php").length
        + (rglobMatches fs
            (patchDir ++ ["cakephp", toString major] ++ ["WEBROOT"])
            ".php").length := by
  constructor <;> (simp [loadCakeVersionPatches, loadCakeVersionCopies]; omega)

/-- C8: if no file exists under the version-keyed subtree
`patch_dir/cakephp/<major>/`, both discovery functions return empty groups
(they are total functions: no error is raised, matching pathlib, whose
rglob of a missing directory yields nothing). -/
theorem missing_version_dir_empty_groups
    (fs : List (List String))
    (patchDir cakeAppDir cakeCakephpPath webrootDir : List String)
    (major : Nat)
    (h : ∀ f ∈ fs, ¬ (patchDir ++ ["cakephp", toString major]) <+: f) :
    loadCakeVersionPatches fs patchDir cakeAppDir cakeCakephpPath
        webrootDir major = []
    ∧ loadCakeVersionCopies fs patchDir cakeAppDir cakeCakephpPath
        webrootDir major = [] := by
  have hnil : ∀ (sub : List String) (sfx : String),
      rglobMatches fs (patchDir ++ ["cakephp", toString major] ++ sub) sfx
        = [] :=
    fun sub sfx => rglobMatches_nil_of_outside fs _ sub sfx h
  exact ⟨by simp only [loadCakeVersionPatches, hnil, List.map_nil,
              List.append_nil, List.nil_append],
         by simp only [loadCakeVersionCopies, hnil, List.map_nil,
              List.append_nil, List.nil_append]⟩

/-- C8 (witness): a filesystem holding one file outside the version
subtree yields empty patch and copy groups. -/
theorem missing_version_dir_empty_groups_witness :
    loadCakeVersionPatches [["other", "x.patch"]] ["res"] ["app"] ["cake"]
        ["web"] 4 = []
    ∧ loadCakeVersionCopies [["other", "x.patch"]] ["res"] ["app"] ["cake"]
        ["web"] 4 = [] :=
  missing_version_dir_empty_groups [["other", "x.patch"]] ["res"] ["app"]
    ["cake"] ["web"] 4 (by decide)

/-- A group all of whose operations already report Applied contributes no
mutation and a zero count to `apply()`. -/
lemma applyGroup_of_all_checked {S : Type} (g : List (Op S)) (s : S)
    (h : ∀ op ∈ g, op.check s = true) : applyGroup g s = (s, 0) := by
  have hfilter : g.filter (fun op => !op.check s) = [] :=
    List.filter_eq_nil_iff.mpr (fun op hop => by simp [h op hop])
  simp [applyGroup, batchCheck, hfilter, batchApply]

/-- A fully instrumented tree is a fixed point of `apply()`: every group
reports zero and the state is unchanged. -/
lemma orchApply_of_all_checked {S : Type} (gs : Groups S) (s : S)
    (h : ∀ op ∈ allOps gs, op.check s = true) :
    orchApply gs s = (s, [0, 0, 0, 0]) := by
  have h1 : applyGroup gs.overrides s = (s, 0) :=
    applyGroup_of_all_checked _ _ (fun op hop => h op (by simp [allOps, hop]))
  have h2 : applyGroup gs.patches s = (s, 0) :=
    applyGroup_of_all_checked _ _ (fun op hop => h op (by simp [allOps, hop]))
  have h3 : applyGroup gs.copies s = (s, 0) :=
    applyGroup_of_all_checked _ _ (fun op hop => h op (by simp [allOps, hop]))
  have h4 : applyGroup gs.annotationRemovals s = (s, 0) :=
    applyGroup_of_all_checked _ _ (fun op hop => h op (by simp [allOps, hop]))
  simp only [orchApply, h1, h2, h3, h4]

/-- C2: once the tree is fully instrumented — every operation of the four
groups reports Applied in the state produced by the first `apply()` — a
second `apply()` leaves the state unchanged, reports zero newly-applied
operations in every group, and therefore yields the same final check
results as the single call. -/
theorem orchApply_idempotent {S : Type} (gs : Groups S) (s0 : S)
    (h : ∀ op ∈ allOps gs, op.check ((orchApply gs s0).1) = true) :
    orchApply gs ((orchApply gs s0).1) = ((orchApply gs s0).1, [0, 0, 0, 0])
    ∧ statusGroups gs ((orchApply gs ((orchApply gs s0).1)).1)
        = statusGroups gs ((orchApply gs s0).1) := by
  have hmain := orchApply_of_all_checked gs ((orchApply gs s0).1) h
  exact ⟨hmain, by rw [hmain]⟩

/-- C2 (witness): one override operation on a Boolean tree state; after
the first `apply()` the tree is fully instrumented and the second call
reports zero everywhere. -/
theorem orchApply_idempotent_witness :
    orchApply
        (⟨[⟨fun s => s, fun _ => some true, fun _ => some false⟩], [], [],
          []⟩ : Groups Bool)
        ((orchApply
            (⟨[⟨fun s => s, fun _ => some true, fun _ => some false⟩], [],
              [], []⟩ : Groups Bool) false).1)
      = ((orchApply
            (⟨[⟨fun s => s, fun _ => some true, fun _ => some false⟩], [],
              [], []⟩ : Groups Bool) false).1, [0, 0, 0, 0])
    ∧ statusGroups
        (⟨[⟨fun s => s, fun _ => some true, fun _ => some false⟩], [], [],
          []⟩ : Groups Bool)
        ((orchApply
            (⟨[⟨fun s => s, fun _ => some true, fun _ => some false⟩], [],
              [], []⟩ : Groups Bool)
            ((orchApply
                (⟨[⟨fun s => s, fun _ => some true, fun _ => some false⟩],
                  [], [], []⟩ : Groups Bool) false).1)).1)
      = statusGroups
          (⟨[⟨fun s => s, fun _ => some true, fun _ => some false⟩], [],
            [], []⟩ : Groups Bool)
          ((orchApply
              (⟨[⟨fun s => s, fun _ => some true, fun _ => some false⟩],
                [], [], []⟩ : Groups Bool) false).1) :=
  orchApply_idempotent _ false (by
    intro op hop
    simp only [allOps, List.append_nil, List.mem_singleton] at hop
    subst hop
    rfl)

/-- C4: in each group, `apply` is invoked exactly on the operations whose
check reported NotApplied and `revert` exactly on those whose check
reported Applied; an operation of one partition is never in the other, so
operations of the complementary partition are never mutated. -/
theorem check_gates_mutation {S : Type} (g : List (Op S)) (s : S) :
    applyGroup g s
      = ((batchApply (g.filter (fun op => !op.check s)) s).1,
         (batchApply (g.filter (fun op => !op.check s)) s).2.length)
    ∧ revertGroup g s
      = ((batchRevert (g.filter (fun op => op.check s)) s).1,
         (g.filter (fun op => op.check s)).length)
    ∧ (∀ op ∈ (batchCheck g s).1, op.check s = true)
    ∧ (∀ op ∈ (batchCheck g s).2, op.check s = false)
    ∧ (∀ op ∈ (batchCheck g s).1, op ∉ (batchCheck g s).2)
    ∧ (∀ op ∈ (batchCheck g s).2, op ∉ (batchCheck g s).1) := by
  refine ⟨rfl, rfl, ?_, ?_, ?_, ?_⟩
  · intro op hop
    exact (List.mem_filter.mp hop).2
  · intro op hop
    have := (List.mem_filter.mp hop).2
    simpa using this
  · intro op hop hop2
    have ht := (List.mem_filter.mp hop).2
    have hf := (List.mem_filter.mp hop2).2
    simp [ht] at hf
  · intro op hop hop2
    have hf := (List.mem_filter.mp hop).2
    have ht := (List.mem_filter.mp hop2).2
    simp [ht] at hf

/-- C4 (witness): a concrete applied operation is not in the unapplied
partition, hence never handed to the batch apply. -/
theorem check_gates_mutation_witness :
    (⟨fun s => s, fun _ => some true, fun _ => some false⟩ : Op Bool)
      ∉ (batchCheck
          [(⟨fun s => s, fun _ => some true, fun _ => some false⟩ :
              Op Bool)] true).2 :=
  (check_gates_mutation
      [(⟨fun s => s, fun _ => some true, fun _ => some false⟩ : Op Bool)]
      true).2.2.2.2.1 _
    (List.mem_filter.mpr ⟨List.mem_singleton_self _, rfl⟩)

/-- C9 (counterexample): a group holding one applied operation whose
revert fails — `revert()` reports a count of 1 for that group although the
tree state is unchanged and the operation still reports Applied, i.e. zero
operations were actually reverted. -/
theorem revert_count_includes_failed :
    (orchRevert
        (⟨[], [], [],
          [⟨fun s => s, fun _ => some true, fun _ => none⟩]⟩ :
            Groups Bool) true).2 = [1, 0, 0, 0]
    ∧ (orchRevert
        (⟨[], [], [],
          [⟨fun s => s, fun _ => some true, fun _ => none⟩]⟩ :
            Groups Bool) true).1 = true
    ∧ (batchRevert
        (batchCheck
          [(⟨fun s => s, fun _ => some true, fun _ => none⟩ : Op Bool)]
          true).1 true).2.length = 0 :=
  ⟨rfl, rfl, rfl⟩

/-- C9 (amended): for each group, `revert()` reports the number of
operations whose check reported Applied at the start of that group — the
revert candidates — not the number of operations actually reverted; the
subset the batch revert succeeded on is discarded. -/
theorem revert_reports_candidate_counts {S : Type} (gs : Groups S)
    (s : S) :
    (∀ (g : List (Op S)) (t : S),
        (revertGroup g t).2 = (batchCheck g t).1.length)
    ∧ (orchRevert gs s).2 =
        [ (batchCheck gs.annotationRemovals s).1.length,
          (batchCheck gs.overrides
            (revertGroup gs.annotationRemovals s).1).1.length,
          (batchCheck gs.patches
            (revertGroup gs.overrides
              (revertGroup gs.annotationRemovals s).1).1).1.length,
          (batchCheck gs.copies
            (revertGroup gs.patches
              (revertGroup gs.overrides
                (revertGroup gs.annotationRemovals s).1).1).1).1.length ] :=
  ⟨fun _ _ => rfl, rfl⟩

/-- C3: every `.patch` file discovered under a root subtree yields a Patch
operation whose `original` is the path relative to that subtree, final
segment replaced by its stem, resolved against the matching live root
(application dir for APP_DIR, framework dir for CAKEPHP_PATH, webroot for
WEBROOT); every `.php` file yields a Copy operation whose `dst` is the
same relative path resolved against the matching live root with no
stripping. -/
theorem discovered_resource_mapping
    (fs : List (List String))
    (patchDir cakeAppDir cakeCakephpPath webrootDir : List String)
    (major : Nat) (f : List String) (hf : f ∈ fs) :
    ((patchDir ++ ["cakephp", toString major] ++ ["APP_DIR"]).isPrefixOf f
        = true →
      (patchDir ++ ["cakephp", toString major] ++ ["APP_DIR"]).length
          < f.length →
      strEndsWith (f.getLastD "") ".patch" = true →
      ({ patch := f,
         original := cakeAppDir
           ++ ((f.drop (patchDir ++ ["cakephp", toString major]
                  ++ ["APP_DIR"]).length).dropLast
             ++ [pyStem ((f.drop (patchDir ++ ["cakephp", toString major]
                  ++ ["APP_DIR"]).length).getLastD "")]) } :
            PatchInstrumentation)
        ∈ loadCakeVersionPatches fs patchDir cakeAppDir cakeCakephpPath
            webrootDir major)
    ∧ ((patchDir ++ ["cakephp", toString major]
          ++ ["CAKEPHP_PATH"]).isPrefixOf f = true →
      (patchDir ++ ["cakephp", toString major] ++ ["CAKEPHP_PATH"]).length
          < f.length →
      strEndsWith (f.getLastD "") ".patch" = true →
      ({ patch := f,
         original := cakeCakephpPath
           ++ ((f.drop (patchDir ++ ["cakephp", toString major]
                  ++ ["CAKEPHP_PATH"]).length).dropLast
             ++ [pyStem ((f.drop (patchDir ++ ["cakephp", toString major]
                  ++ ["CAKEPHP_PATH"]).length).getLastD "")]) } :
            PatchInstrumentation)
        ∈ loadCakeVersionPatches fs patchDir cakeAppDir cakeCakephpPath
            webrootDir major)
    ∧ ((patchDir ++ ["cakephp", toString major] ++ ["WEBROOT"]).isPrefixOf f
          = true →
      (patchDir ++ ["cakephp", toString major] ++ ["WEBROOT"]).length
          < f.length →
      strEndsWith (f.getLastD "") ".patch" = true →
      ({ patch := f,
         original := webrootDir
           ++ ((f.drop (patchDir ++ ["cakephp", toString major]
                  ++ ["WEBROOT"]).length).dropLast
             ++ [pyStem ((f.drop (patchDir ++ ["cakephp", toString major]
                  ++ ["WEBROOT"]).length).getLastD "")]) } :
            PatchInstrumentation)
        ∈ loadCakeVersionPatches fs patchDir cakeAppDir cakeCakephpPath
            webrootDir major)
    ∧ ((patchDir ++ ["cakephp", toString major] ++ ["APP_DIR"]).isPrefixOf f
          = true →
      (patchDir ++ ["cakephp", toString major] ++ ["APP_DIR"]).length
          < f.length →
      strEndsWith (f.getLastD "") ".php" = true →
      ({ src := f,
         dst := cakeAppDir
           ++ f.drop (patchDir ++ ["cakephp", toString major]
                ++ ["APP_DIR"]).length } : CopyInstrumentation)
        ∈ loadCakeVersionCopies fs patchDir cakeAppDir cakeCakephpPath
            webrootDir major)
    ∧ ((patchDir ++ ["cakephp", toString major]
          ++ ["CAKEPHP_PATH"]).isPrefixOf f = true →
      (patchDir ++ ["cakephp", toString major] ++ ["CAKEPHP_PATH"]).length
          < f.length →
      strEndsWith (f.getLastD "") ".php" = true →
      ({ src := f,
         dst := cakeCakephpPath
           ++ f.drop (patchDir ++ ["cakephp", toString major]
                ++ ["CAKEPHP_PATH"]).length } : CopyInstrumentation)
        ∈ loadCakeVersionCopies fs patchDir cakeAppDir cakeCakephpPath
            webrootDir major)
    ∧ ((patchDir ++ ["cakephp", toString major] ++ ["WEBROOT"]).isPrefixOf f
          = true →
      (patchDir ++ ["cakephp", toString major] ++ ["WEBROOT"]).length
          < f.length →
      strEndsWith (f.getLastD "") ".php" = true →
      ({ src := f,
         dst := webrootDir
           ++ f.drop (patchDir ++ ["cakephp", toString major]
                ++ ["WEBROOT"]).length } : CopyInstrumentation)
        ∈ loadCakeVersionCopies fs patchDir cakeAppDir cakeCakephpPath
            webrootDir major) := by
  refine ⟨fun h1 h2 h3 => ?_, fun h1 h2 h3 => ?_, fun h1 h2 h3 => ?_,
    fun h1 h2 h3 => ?_, fun h1 h2 h3 => ?_, fun h1 h2 h3 => ?_⟩
  · exact List.mem_append_left _ (List.mem_append_left _
      (List.mem_map_of_mem _ (mem_rglobMatches hf h1 h2 h3)))
  · exact List.mem_append_left _ (List.mem_append_right _
      (List.mem_map_of_mem _ (mem_rglobMatches hf h1 h2 h3)))
  · exact List.mem_append_right _
      (List.mem_map_of_mem _ (mem_rglobMatches hf h1 h2 h3))
  · exact List.mem_append_left _ (List.mem_append_left _
      (List.mem_map_of_mem _ (mem_rglobMatches hf h1 h2 h3)))
  · exact List.mem_append_left _ (List.mem_append_right _
      (List.mem_map_of_mem _ (mem_rglobMatches hf h1 h2 h3)))
  · exact List.mem_append_right _
      (List.mem_map_of_mem _ (mem_rglobMatches hf h1 h2 h3))

/-- C3 (witness): a patch file under APP_DIR maps to its stem resolved
against the live application dir. -/
theorem discovered_resource_mapping_witness :
    ({ patch := ["res", "cakephp", "4", "APP_DIR", "sub",
                 "file.php.patch"],
       original := ["app", "sub", "file.php"] } : PatchInstrumentation)
      ∈ loadCakeVersionPatches
          [["res", "cakephp", "4", "APP_DIR", "sub", "file.php.patch"]]
          ["res"] ["app"] ["cake"] ["web"] 4 :=
  (discovered_resource_mapping
      [["res", "cakephp", "4", "APP_DIR", "sub", "file.php.patch"]]
      ["res"] ["app"] ["cake"] ["web"] 4
      ["res", "cakephp", "4", "APP_DIR", "sub", "file.php.patch"]
      (by decide)).1 (by decide) (by decide) (by decide)

/-- Every discovered patch operation's patch file extends the version-keyed
subtree `patch_dir/cakephp/<major>/`. -/
lemma patch_file_under_version_dir {fs : List (List String)}
    {patchDir cakeAppDir cakeCakephpPath webrootDir : List String}
    {major : Nat} :
    ∀ op ∈ loadCakeVersionPatches fs patchDir cakeAppDir cakeCakephpPath
        webrootDir major,
      (patchDir ++ ["cakephp", toString major]) <+: op.patch := by
  intro op hop
  simp only [loadCakeVersionPatches, List.mem_append, List.mem_map] at hop
  rcases hop with (⟨f, hf, rfl⟩ | ⟨f, hf, rfl⟩) | ⟨f, hf, rfl⟩ <;>
    exact (List.prefix_append _ _).trans (rglobMatches_extends_root hf)

/-- Every discovered copy operation's source file extends the version-keyed
subtree `patch_dir/cakephp/<major>/`. -/
lemma copy_src_under_version_dir {fs : List (List String)}
    {patchDir cakeAppDir cakeCakephpPath webrootDir : List String}
    {major : Nat} :
    ∀ op ∈ loadCakeVersionCopies fs patchDir cakeAppDir cakeCakephpPath
        webrootDir major,
      (patchDir ++ ["cakephp", toString major]) <+: op.src := by
  intro op hop
  simp only [loadCakeVersionCopies, List.mem_append, List.mem_map] at hop
  rcases hop with (⟨f, hf, rfl⟩ | ⟨f, hf, rfl⟩) | ⟨f, hf, rfl⟩ <;>
    exact (List.prefix_append _ _).trans (rglobMatches_extends_root hf)

/-- Two equal-length extensions of `patchDir` by a `cakephp/<key>` pair
that are both prefixes of the same file have the same key. -/
lemma version_key_unique {patchDir f : List String} {k m : String}
    (h1 : (patchDir ++ ["cakephp", k]) <+: f)
    (h2 : (patchDir ++ ["cakephp", m]) <+: f) : k = m := by
  have e1 := List.prefix_iff_eq_take.mp h1
  have e2 := List.prefix_iff_eq_take.mp h2
  have hlen : (patchDir ++ ["cakephp", k]).length
      = (patchDir ++ ["cakephp", m]).length := by simp
  rw [hlen] at e1
  have := List.append_cancel_left (e1.trans e2.symm)
  simpa using this

/-- C6: discovery is scoped by the detected major version — every file a
discovered operation is built from lies under
`patch_dir/cakephp/<major>/`, where `major` is the integer parsed from the
text before the first dot of the version string, and a file stored under
any other version key is never the source of a discovered operation. -/
theorem discovery_scoped_to_major_version
    (fs : List (List String))
    (patchDir cakeAppDir cakeCakephpPath webrootDir : List String)
    (version : String) :
    (∀ op ∈ loadCakeVersionPatches fs patchDir cakeAppDir cakeCakephpPath
        webrootDir (majorVersionOf version),
      (patchDir ++ ["cakephp", toString (majorVersionOf version)])
        <+: op.patch)
    ∧ (∀ op ∈ loadCakeVersionCopies fs patchDir cakeAppDir cakeCakephpPath
        webrootDir (majorVersionOf version),
      (patchDir ++ ["cakephp", toString (majorVersionOf version)])
        <+: op.src)
    ∧ (∀ k : String, k ≠ toString (majorVersionOf version) →
        ∀ f : List String, (patchDir ++ ["cakephp", k]) <+: f →
          (∀ op ∈ loadCakeVersionPatches fs patchDir cakeAppDir
              cakeCakephpPath webrootDir (majorVersionOf version),
            op.patch ≠ f)
          ∧ (∀ op ∈ loadCakeVersionCopies fs patchDir cakeAppDir
              cakeCakephpPath webrootDir (majorVersionOf version),
            op.src ≠ f)) := by
  refine ⟨patch_file_under_version_dir, copy_src_under_version_dir,
    fun k hk f hpre => ⟨fun op hop heq => ?_, fun op hop heq => ?_⟩⟩
  · have hm := patch_file_under_version_dir op hop
    rw [heq] at hm
    exact hk (version_key_unique hpre hm)
  · have hm := copy_src_under_version_dir op hop
    rw [heq] at hm
    exact hk (version_key_unique hpre hm)

/-- C6 (witness): with detected version string 4.2.1, a discovered patch
file extends `res/cakephp/4`. -/
theorem discovery_scoped_to_major_version_witness :
    (["res"] ++ ["cakephp", toString (majorVersionOf "4.2.1")])
      <+: ({ patch := ["res", "cakephp", "4", "APP_DIR", "f.patch"],
             original := ["app", "f"] } : PatchInstrumentation).patch :=
  (discovery_scoped_to_major_version
      [["res", "cakephp", "4", "APP_DIR", "f.patch"]]
      ["res"] ["app"] ["cake"] ["web"] "4.2.1").1
    { patch := ["res", "cakephp", "4", "APP_DIR", "f.patch"],
      original := ["app", "f"] }
    (by decide)

/-- C10: every public entry point — `apply`, `revert` and the read-only
`is_applied` — produces, as a side effect of loading settings, the process
environment updated with CAKEPHP_PATH, APP_DIR, WEBROOT_DIR and
INSTRUMENTATION_INI before the orchestration touches any operation; the
resulting environment does not depend on the groups or the tree state, and
the four variables read back the detected values. -/
theorem entry_points_set_env {S : Type} (e : Env) (app : AppInfoModel)
    (webrootDir iniPath : List String) (gs gs2 : Groups S) (s s2 : S) :
    (applyRun e app webrootDir iniPath gs s).1
        = loadSettingsEnv e app webrootDir iniPath
    ∧ (revertRun e app webrootDir iniPath gs s).1
        = loadSettingsEnv e app webrootDir iniPath
    ∧ (isAppliedRun e app webrootDir iniPath gs s).1
        = loadSettingsEnv e app webrootDir iniPath
    ∧ (isAppliedRun e app webrootDir iniPath gs s).1
        = (isAppliedRun e app webrootDir iniPath gs2 s2).1
    ∧ getEnv (isAppliedRun e app webrootDir iniPath gs s).1 "CAKEPHP_PATH"
        = some app.cakephpPath
    ∧ getEnv (isAppliedRun e app webrootDir iniPath gs s).1 "APP_DIR"
        = some app.appDir
    ∧ getEnv (isAppliedRun e app webrootDir iniPath gs s).1 "WEBROOT_DIR"
        = some webrootDir
    ∧ getEnv (isAppliedRun e app webrootDir iniPath gs s).1
          "INSTRUMENTATION_INI"
        = some iniPath :=
  ⟨rfl, rfl, rfl, rfl, rfl, rfl, rfl, rfl⟩
